import Mathlib

/-!
Verification of the collaborative-canvas relay and client sync engine.

The definitions below are a shallow embedding of the TypeScript sources:
  * the relay (`src/server/src/index.ts` and the extended relay with
    object update support: `addObjectToCanvas`, `updateObjectInCanvas`,
    `removeObjectsFromCanvas`, and the socket handlers built on them);
  * the client sync engine (`src/client/hooks/useCanvas.ts`): the local
    action history and undo handler, the asset chunk upload loop and the
    chunk reassembly in `onAssetChunk` / `onAssetComplete`, and the
    in-progress stroke retirement in `onObjectAdded`.

JavaScript `Map`s are embedded as association lists with `Map.set`
insertion-order semantics (replace in place if the key is present,
append at the end otherwise).  Binary buffers are embedded as `List Nat`.
-/

/-- A 2-D point, as in the client `Point` interface. -/
structure CanvasPoint where
  x : Int
  y : Int
deriving DecidableEq, Repr

/-- A canvas object.  The TypeScript `CanvasObject` is a tagged union of
stroke and image records; for the relay and sync logic only the `id`, the
`type` tag (possibly absent on legacy payloads, hence `Option`), and the
stroke `points` matter.  All remaining fields (color, size, asset
coordinates, ...) are collapsed into the opaque `payload`. -/
structure CanvasObject where
  id : String
  typ : Option String
  points : List CanvasPoint
  payload : Nat
deriving DecidableEq, Repr

/-- Association-list lookup with the semantics of `Map.get`. -/
def lookupA {κ α : Type} [DecidableEq κ] : List (κ × α) → κ → Option α
  | [], _ => none
  | p :: rest, k => if p.1 = k then some p.2 else lookupA rest k

/-- Association-list write with the semantics of `Map.set`: replace in
place when the key is present, append at the end otherwise. -/
def setA {κ α : Type} [DecidableEq κ] : List (κ × α) → κ → α → List (κ × α)
  | [], k, v => [(k, v)]
  | p :: rest, k, v => if p.1 = k then (k, v) :: rest else p :: setA rest k v

/-- Embedding of the relay helper `normalizeObject`: a payload without an
`id` (JS falsy, embedded as the empty string) is rejected; a payload
without a `type` tag is defaulted to a stroke; anything else is returned
unchanged. -/
def normalizeObject (o : CanvasObject) : Option CanvasObject :=
  if o.id = "" then none
  else
    match o.typ with
    | none => some { o with typ := some "stroke" }
    | some _ => some o

/-- Embedding of the relay helper `addObjectToCanvas`, acting on the room
object list `getCanvasState(canvasId)`: normalize, then append if and only
if no existing object shares the `id`.  The second component is the value
the function returns to its caller (`null` embedded as `none`). -/
def addObjectToCanvas (objects : List CanvasObject) (object : CanvasObject) :
    List CanvasObject × Option CanvasObject :=
  match normalizeObject object with
  | none => (objects, none)
  | some n =>
    if objects.any (fun o => o.id = n.id) then (objects, none)
    else (objects ++ [n], some n)

/-- Helper for `updateObjectInCanvas`: `objects.findIndex(o => o.id ===
normalized.id)` followed by `objects[index] = normalized` when the index
exists, and `objects.push(normalized)` otherwise — replace the first
entry with a matching id, append at the end when there is none. -/
def replaceFirstById : List CanvasObject → CanvasObject → List CanvasObject
  | [], n => [n]
  | o :: rest, n => if o.id = n.id then n :: rest else o :: replaceFirstById rest n

/-- Embedding of the relay helper `updateObjectInCanvas`, acting on the
room object list: normalize, then replace the entry with matching id, or
append when absent. -/
def updateObjectInCanvas (objects : List CanvasObject) (object : CanvasObject) :
    List CanvasObject × Option CanvasObject :=
  match normalizeObject object with
  | none => (objects, none)
  | some n => (replaceFirstById objects n, some n)

/-- Helper for `removeObjectsFromCanvas`: `objects.findIndex(o => o.id ===
id)` followed by `objects.splice(index, 1)` when found — remove the first
entry whose id matches, if any. -/
def removeOneById : List CanvasObject → String → List CanvasObject
  | [], _ => []
  | o :: rest, i => if o.id = i then rest else o :: removeOneById rest i

/-- Embedding of the relay helper `removeObjectsFromCanvas`, acting on the
room object list: remove, for each id of the list in order, the first
entry carrying it; the boolean result (`objects.length !==
initialLength`) reports whether anything was actually removed. -/
def removeObjectsFromCanvas (objects : List CanvasObject) (objectIds : List String) :
    List CanvasObject × Bool :=
  let r := objectIds.foldl removeOneById objects
  (r, decide (r.length ≠ objects.length))

/-- The relay constant `MAX_USERS_PER_SESSION`. -/
def MAX_USERS_PER_SESSION : Nat := 10

/-- Relay state: the socket.io room membership map (`io.sockets.adapter.
rooms`, one entry per canvas id holding the member socket ids in join
order) and the per-canvas object lists (`canvasStates`).  The
`canvasUsers` display-name map of the source does not affect any verified
behaviour and is omitted. -/
structure ServerState where
  rooms : List (String × List String)
  canvasStates : List (String × List CanvasObject)
deriving DecidableEq, Repr

/-- Point-to-point reply the relay sends to the joining socket: either an
`error` message or the `canvas-state` snapshot. -/
inductive JoinReply where
  | errorReply (message : String)
  | canvasState (objects : List CanvasObject)
deriving DecidableEq, Repr

/-- Members of a canvas room (empty when the room does not exist yet). -/
def getRoom (st : ServerState) (canvasId : String) : List String :=
  (lookupA st.rooms canvasId).getD []

/-- Embedding of `getCanvasState`: look the canvas up, creating an empty
entry on first use (the source mutates the map, so the state is returned
alongside the list). -/
def getCanvasState (st : ServerState) (canvasId : String) :
    ServerState × List CanvasObject :=
  match lookupA st.canvasStates canvasId with
  | some l => (st, l)
  | none => ({ st with canvasStates := setA st.canvasStates canvasId [] }, [])

/-- Embedding of `socket.join(canvasId)`: insert the socket id into the
adapter room, a no-op when it is already a member. -/
def socketJoin (st : ServerState) (sid canvasId : String) : ServerState :=
  let r := getRoom st canvasId
  if sid ∈ r then st
  else { st with rooms := setA st.rooms canvasId (r ++ [sid]) }

/-- Embedding of the `join-canvas` handler (`src/server/src/index.ts`
lines 38-76): validate the canvas id, reject with a capacity error when
the adapter room already holds `MAX_USERS_PER_SESSION` sockets, otherwise
join the room and reply point-to-point with the full current object
list. -/
def joinCanvas (st : ServerState) (sid canvasId : String) :
    ServerState × JoinReply :=
  if canvasId = "" then (st, .errorReply "Invalid canvas ID")
  else
    let currentUsers := (getRoom st canvasId).length
    if MAX_USERS_PER_SESSION ≤ currentUsers then
      (st, .errorReply "Session is full. Maximum 10 users allowed per session.")
    else
      let st1 := socketJoin st sid canvasId
      let p := getCanvasState st1 canvasId
      (p.1, .canvasState p.2)

/-- Embedding of the `object-added` / legacy `stroke-added` handler of the
extended relay: validate the canvas id, run `addObjectToCanvas`, and
rebroadcast to the other members exactly when an object was added (the
boolean result).  On a duplicate or invalid object the handler only sends
a point-to-point error and neither mutates state nor broadcasts. -/
def handleObjectAdded (st : ServerState) (canvasId : String) (object : CanvasObject) :
    ServerState × Bool :=
  if canvasId = "" then (st, false)
  else
    let p := getCanvasState st canvasId
    match addObjectToCanvas p.2 object with
    | (objs, some _) =>
      ({ p.1 with canvasStates := setA p.1.canvasStates canvasId objs }, true)
    | (_, none) => (p.1, false)

/-- Embedding of the `object-removed` / legacy `stroke-removed` handler:
validate, run `removeObjectsFromCanvas`, and rebroadcast to the other
members exactly when at least one entry was actually removed. -/
def handleObjectRemoved (st : ServerState) (canvasId : String) (objectIds : List String) :
    ServerState × Bool :=
  if canvasId = "" then (st, false)
  else
    let p := getCanvasState st canvasId
    let q := removeObjectsFromCanvas p.2 objectIds
    ({ p.1 with canvasStates := setA p.1.canvasStates canvasId q.1 }, q.2)

example : (addObjectToCanvas [] { id := "a", typ := some "stroke", points := [], payload := 0 }).1 =
    [{ id := "a", typ := some "stroke", points := [], payload := 0 }] := by decide

example :
    (removeObjectsFromCanvas [{ id := "a", typ := some "stroke", points := [], payload := 0 }] ["b"]) =
    ([{ id := "a", typ := some "stroke", points := [], payload := 0 }], false) := by decide

/-- One of the four relay mutation operations (`add` / `update` /
`remove` / `clear`), as applied to a room's object list by the socket
handlers. -/
inductive RelayOp where
  | add (object : CanvasObject)
  | update (object : CanvasObject)
  | remove (objectIds : List String)
  | clear
deriving DecidableEq, Repr

/-- Effect of one relay mutation on the room object list: `object-added`
runs `addObjectToCanvas`, `object-updated` runs `updateObjectInCanvas`,
`object-removed` runs `removeObjectsFromCanvas`, and `canvas-cleared`
replaces the list with `[]`. -/
def applyRelayOp (objects : List CanvasObject) : RelayOp → List CanvasObject
  | .add o => (addObjectToCanvas objects o).1
  | .update o => (updateObjectInCanvas objects o).1
  | .remove ids => (removeObjectsFromCanvas objects ids).1
  | .clear => []

/-- A `LocalActionHistory` entry of the client (`useCanvas.ts`): one push
per local user-initiated add or erase. -/
inductive LocalAction where
  | add (object : CanvasObject)
  | remove (objects : List CanvasObject)
deriving DecidableEq, Repr

/-- Outbound mutation message a client handler emits to the relay. -/
inductive ClientOutMsg where
  | objectAdded (object : CanvasObject)
  | objectRemoved (objectIds : List String)
deriving DecidableEq, Repr

/-- Client-local sync state: the optimistic object list (`objects` /
`objectsRef`) and the local action history stack
(`localActionHistoryRef`).  The history is a stack; the JS array pushes
and pops at its end, embedded here with the top of the stack at the head
of the list. -/
structure ClientState where
  objects : List CanvasObject
  history : List LocalAction
deriving DecidableEq, Repr

/-- Embedding of the brush branch of `handleMouseUp` (`useCanvas.ts`
lines 758-777) for a connected client: push an `add` entry on the local
action history, append the committed object to the local list, and send
`object-added`. -/
def handleMouseUpBrush (st : ClientState) (newObject : CanvasObject) :
    ClientState × List ClientOutMsg :=
  ({ objects := st.objects ++ [newObject],
     history := .add newObject :: st.history },
   [.objectAdded newObject])

/-- Embedding of the `onObjectRemoved` callback (`useCanvas.ts` lines
205-207): a remote removal filters the matching ids out of the local
object list and never touches the local action history. -/
def applyRemoteRemove (st : ClientState) (objectIds : List String) : ClientState :=
  { st with objects := st.objects.filter (fun o => ¬ objectIds.contains o.id) }

/-- Embedding of the undo branch of `handleKeyDown` (`useCanvas.ts` lines
536-565) for a connected client in a room: pop the most recent local
action (popping happens before any existence check); for an `add` entry
remove the object and send `object-removed` only when it still exists;
for a `remove` entry re-add exactly the recorded objects whose ids are
not currently present and send one `object-added` per restored object. -/
def handleUndo (st : ClientState) : ClientState × List ClientOutMsg :=
  match st.history with
  | [] => (st, [])
  | action :: rest =>
    match action with
    | .add o =>
      if st.objects.any (fun e => e.id = o.id) then
        ({ objects := st.objects.filter (fun e => ¬ e.id = o.id), history := rest },
         [.objectRemoved [o.id]])
      else
        ({ st with history := rest }, [])
    | .remove objs =>
      let currentIds := st.objects.map (fun o => o.id)
      let objectsToRestore := objs.filter (fun o => ¬ currentIds.contains o.id)
      if objectsToRestore.isEmpty then
        ({ st with history := rest }, [])
      else
        ({ objects := st.objects ++ objectsToRestore, history := rest },
         objectsToRestore.map (fun o => .objectAdded o))

/-- An ephemeral in-progress stroke as held by a receiving client
(`InProgressStroke`): the drawing user's socket id, the client-generated
stroke identifier carried by the `stroke-progress` messages, and the
points so far (style fields collapsed into `payload`). -/
structure InProgressStroke where
  nodeId : String
  nodeIdStrokeId : String
  points : List CanvasPoint
  payload : Nat
deriving DecidableEq, Repr

/-- The guard of the retirement step of `onObjectAdded`: both point lists
non-empty and `inProgress.points[0].x === object.points[0].x &&
inProgress.points[0].y === object.points[0].y`. -/
def firstPointMatch : List CanvasPoint → List CanvasPoint → Bool
  | ip0 :: _, o0 :: _ => ip0.x == o0.x && ip0.y == o0.y
  | _, _ => false

/-- Embedding of the in-progress retirement step of the `onObjectAdded`
callback (`useCanvas.ts` lines 178-195): when the committed object is a
stroke, every entry of the in-progress map (keyed by the drawing user's
`nodeId`) whose first point coordinates equal the committed stroke's
first point (both point lists non-empty) is deleted. -/
def retireInProgressStrokes (inProgress : List (String × InProgressStroke))
    (object : CanvasObject) : List (String × InProgressStroke) :=
  if object.typ = some "stroke" then
    inProgress.filter (fun p => ! firstPointMatch p.2.points object.points)
  else inProgress

/-- Loop body of the asset upload chunking (`useCanvas.ts` lines
505-514): starting at `seq = 0`, emit `(seq, view.slice(offset, offset +
chunkSize))` and advance until the buffer is exhausted.  The `fuel`
argument bounds the iteration count (the byte length suffices whenever
`chunkSize > 0`, matching the terminating runs of the source loop). -/
def chunkLoop (chunkSize : Nat) : Nat → List Nat → Nat → List (Nat × List Nat)
  | 0, _, _ => []
  | _, [], _ => []
  | fuel + 1, bytes, seq =>
    (seq, bytes.take chunkSize) :: chunkLoop chunkSize fuel (bytes.drop chunkSize) (seq + 1)

/-- The sequence of `(seq, bytes)` chunk messages the sender emits for a
byte blob. -/
def chunkAssetBytes (chunkSize : Nat) (bytes : List Nat) : List (Nat × List Nat) :=
  chunkLoop chunkSize bytes.length bytes 0

/-- Embedding of the `onAssetChunk` callback (`useCanvas.ts` lines
254-258): buffer the incoming chunk in the per-asset map keyed by its
sequence number (`current.set(seq, bytes)`). -/
def bufferAssetChunk (chunks : List (Nat × List Nat)) (seq : Nat) (bytes : List Nat) :
    List (Nat × List Nat) :=
  setA chunks seq bytes

/-- Embedding of the reassembly in `onAssetComplete` (`useCanvas.ts`
lines 259-268): sort the buffered entries ascending by sequence number
(`.sort((a, b) => a[0] - b[0])`), drop the keys, and concatenate the
byte buffers (`concatArrayBuffers`). -/
def assembleAssetChunks (chunks : List (Nat × List Nat)) : List Nat :=
  ((List.insertionSort (fun a b => a.1 ≤ b.1) chunks).map Prod.snd).flatten

example : chunkAssetBytes 2 [1, 2, 3, 4, 5] = [(0, [1, 2]), (1, [3, 4]), (2, [5])] := by decide

example :
    assembleAssetChunks ([(2, [5]), (1, [3, 4]), (0, [1, 2])].foldl
      (fun m p => bufferAssetChunk m p.1 p.2) []) = [1, 2, 3, 4, 5] := by decide

/-- Current object list of a canvas (the read part of `getCanvasState`:
a canvas that was never written has the empty list). -/
def roomObjects (st : ServerState) (canvasId : String) : List CanvasObject :=
  (lookupA st.canvasStates canvasId).getD []

/-- Convenience constructor for a committed stroke object. -/
def mkStroke (id : String) (payload : Nat) (points : List CanvasPoint) : CanvasObject :=
  { id := id, typ := some "stroke", points := points, payload := payload }

/-- In-progress stroke of user `n1` streaming stroke `s1`, starting at
the origin. -/
def sampleInProgress : InProgressStroke :=
  { nodeId := "n1", nodeIdStrokeId := "s1",
    points := [{ x := 0, y := 0 }, { x := 5, y := 5 }], payload := 0 }

/-- Committed stroke carrying the same client-generated identifier `s1`
as `sampleInProgress` but a different first point. -/
def sampleCommitted : CanvasObject :=
  mkStroke "s1" 0 [{ x := 1, y := 1 }, { x := 5, y := 5 }]

/-- Relay state after ten distinct sockets join room `room2` starting
from a fresh relay. -/
def tenJoinsState : ServerState :=
  ["u0", "u1", "u2", "u3", "u4", "u5", "u6", "u7", "u8", "u9"].foldl
    (fun s u => (joinCanvas s u "room2").1) { rooms := [], canvasStates := [] }

instance : IsTotal (Nat × List Nat) (fun a b => a.1 ≤ b.1) :=
  ⟨fun a b => Nat.le_total a.1 b.1⟩

instance : IsTrans (Nat × List Nat) (fun a b => a.1 ≤ b.1) :=
  ⟨fun _ _ _ h₁ h₂ => Nat.le_trans h₁ h₂⟩

/-! ## Theorems -/

/-- Claim C10: a local undo pops the most recent `LocalActionHistory`
entry before checking whether it can take effect, so on a non-empty
history the stack shrinks by exactly one entry regardless of whether any
object changed. -/
theorem claim_C10_undo_always_pops (st : ClientState) (a : LocalAction)
    (rest : List LocalAction) (h : st.history = a :: rest) :
    (handleUndo st).1.history = rest ∧
    (handleUndo st).1.history.length + 1 = st.history.length := by
  obtain ⟨objs, hist⟩ := st
  simp only at h
  subst h
  refine ⟨?_, ?_⟩ <;>
    · cases a with
      | add o =>
        simp only [handleUndo]
        split <;> simp
      | remove os =>
        simp only [handleUndo]
        split <;> simp

/-- Witness for C10 at a concrete state. -/
theorem claim_C10_undo_always_pops_witness :
    (handleUndo { objects := [], history := [.add (mkStroke "a" 0 [])] }).1.history = [] ∧
    (handleUndo { objects := [], history := [.add (mkStroke "a" 0 [])] }).1.history.length + 1 =
      [LocalAction.add (mkStroke "a" 0 [])].length :=
  claim_C10_undo_always_pops { objects := [], history := [.add (mkStroke "a" 0 [])] }
    (.add (mkStroke "a" 0 [])) [] rfl

/-- Claim C6: undo of an `add` entry removes the object and emits an
outbound `object-removed` only when an object with that id still exists;
when a remote peer already removed it the undo is a safe no-op on the
object list and emits nothing; undo of a `remove` entry re-adds exactly
the recorded objects whose ids are not currently present. -/
theorem claim_C6_undo_remote_safety :
    (∀ (st : ClientState) (o : CanvasObject) (rest : List LocalAction),
      st.history = LocalAction.add o :: rest →
      st.objects.any (fun e => e.id = o.id) = true →
      handleUndo st =
        ({ objects := st.objects.filter (fun e => ¬ e.id = o.id), history := rest },
         [ClientOutMsg.objectRemoved [o.id]])) ∧
    (∀ (st : ClientState) (o : CanvasObject) (rest : List LocalAction),
      st.history = LocalAction.add o :: rest →
      st.objects.any (fun e => e.id = o.id) = false →
      handleUndo st = ({ st with history := rest }, [])) ∧
    (∀ (st : ClientState) (o : CanvasObject) (rest : List LocalAction),
      st.history = LocalAction.add o :: rest →
      (handleUndo (applyRemoteRemove st [o.id])).1.objects =
        (applyRemoteRemove st [o.id]).objects ∧
      (handleUndo (applyRemoteRemove st [o.id])).2 = []) ∧
    (∀ (st : ClientState) (objs : List CanvasObject) (rest : List LocalAction),
      st.history = LocalAction.remove objs :: rest →
      (handleUndo st).1.objects =
        st.objects ++ objs.filter (fun o => ¬ (st.objects.map (fun e => e.id)).contains o.id)) := by
  refine ⟨?_, ?_, ?_, ?_⟩
  · intro st o rest h hany
    obtain ⟨objs, hist⟩ := st
    simp only at h hany
    subst h
    simp [handleUndo, hany]
  · intro st o rest h hany
    obtain ⟨objs, hist⟩ := st
    simp only at h hany
    subst h
    simp [handleUndo, hany]
  · intro st o rest h
    obtain ⟨objs, hist⟩ := st
    simp only at h
    subst h
    have hany : ((objs.filter (fun e => ¬ [o.id].contains e.id)).any
        (fun e => e.id = o.id)) = false := by
      simp only [List.any_eq_false, List.mem_filter]
      intro e he
      simp only [List.contains_cons, List.contains_nil, Bool.or_false, decide_not,
        Bool.not_eq_eq_eq_not, Bool.not_true, decide_eq_false_iff_not, beq_iff_eq] at he
      simp [he.2]
    simp [handleUndo, applyRemoteRemove, hany]
  · intro st objs rest h
    obtain ⟨cur, hist⟩ := st
    simp only at h
    subst h
    simp only [handleUndo]
    split
    · next hemp =>
      simp at hemp ⊢
      exact hemp
    · rfl

/-- Witness for C6: a client added stroke `a`, a remote peer erased it,
and the undo leaves the object list unchanged and sends nothing. -/
theorem claim_C6_undo_remote_safety_witness :
    (handleUndo (applyRemoteRemove
        { objects := [mkStroke "a" 0 []], history := [.add (mkStroke "a" 0 [])] }
        [(mkStroke "a" 0 []).id])).1.objects =
      (applyRemoteRemove
        { objects := [mkStroke "a" 0 []], history := [.add (mkStroke "a" 0 [])] }
        [(mkStroke "a" 0 []).id]).objects ∧
    (handleUndo (applyRemoteRemove
        { objects := [mkStroke "a" 0 []], history := [.add (mkStroke "a" 0 [])] }
        [(mkStroke "a" 0 []).id])).2 = [] :=
  claim_C6_undo_remote_safety.2.2.1
    { objects := [mkStroke "a" 0 []], history := [.add (mkStroke "a" 0 [])] }
    (mkStroke "a" 0 []) [] rfl

/-- Claim C7: local add(A), add(B), undo, undo with no remote mutations
in between restores the pre-sequence object list (and history), and the
final list contains neither A nor B.  The freshness hypotheses reflect
the client generating a fresh uuid for every committed stroke. -/
theorem claim_C7_double_undo (st : ClientState) (A B : CanvasObject)
    (hA : ¬ A.id ∈ st.objects.map (fun o => o.id))
    (hB : ¬ B.id ∈ st.objects.map (fun o => o.id))
    (hAB : ¬ B.id = A.id) :
    (handleUndo (handleUndo
        (handleMouseUpBrush (handleMouseUpBrush st A).1 B).1).1).1.objects = st.objects ∧
    (handleUndo (handleUndo
        (handleMouseUpBrush (handleMouseUpBrush st A).1 B).1).1).1.history = st.history ∧
    ¬ A.id ∈ (handleUndo (handleUndo
        (handleMouseUpBrush (handleMouseUpBrush st A).1 B).1).1).1.objects.map
        (fun o => o.id) ∧
    ¬ B.id ∈ (handleUndo (handleUndo
        (handleMouseUpBrush (handleMouseUpBrush st A).1 B).1).1).1.objects.map
        (fun o => o.id) := by
  obtain ⟨objs, hist⟩ := st
  simp only at hA hB
  have hAmem : ∀ e ∈ objs, ¬ e.id = A.id := by
    intro e he heq
    exact hA (List.mem_map.mpr ⟨e, he, heq⟩)
  have hBmem : ∀ e ∈ objs, ¬ e.id = B.id := by
    intro e he heq
    exact hB (List.mem_map.mpr ⟨e, he, heq⟩)
  have hst2 : (handleMouseUpBrush (handleMouseUpBrush ⟨objs, hist⟩ A).1 B).1 =
      ⟨(objs ++ [A]) ++ [B], .add B :: .add A :: hist⟩ := rfl
  have hanyB : (((objs ++ [A]) ++ [B]).any (fun e => e.id = B.id)) = true := by
    simp
  have hAB' : ¬ A.id = B.id := fun h => hAB h.symm
  have hfilterB : ((objs ++ [A]) ++ [B]).filter (fun e => ¬ e.id = B.id) = objs ++ [A] := by
    simp only [List.filter_append]
    rw [List.filter_eq_self.mpr, List.filter_cons, List.filter_cons]
    · simp [hAB']
    · intro e he
      simpa using hBmem e he
  have hu1 : handleUndo ⟨(objs ++ [A]) ++ [B], .add B :: .add A :: hist⟩ =
      (⟨objs ++ [A], .add A :: hist⟩, [.objectRemoved [B.id]]) := by
    simp only [handleUndo, hanyB, if_true, hfilterB]
  have hanyA : ((objs ++ [A]).any (fun e => e.id = A.id)) = true := by
    simp
  have hfilterA : (objs ++ [A]).filter (fun e => ¬ e.id = A.id) = objs := by
    simp only [List.filter_append]
    rw [List.filter_eq_self.mpr, List.filter_cons]
    · simp
    · intro e he
      simpa using hAmem e he
  have hu2 : handleUndo ⟨objs ++ [A], .add A :: hist⟩ =
      (⟨objs, hist⟩, [.objectRemoved [A.id]]) := by
    simp only [handleUndo, hanyA, if_true, hfilterA]
  rw [hst2, hu1]
  simp only [hu2]
  exact ⟨trivial, trivial, hA, hB⟩

/-- Witness for C7 at concrete strokes over the empty canvas. -/
theorem claim_C7_double_undo_witness :
    (handleUndo (handleUndo
        (handleMouseUpBrush (handleMouseUpBrush { objects := [], history := [] }
          (mkStroke "a" 0 [])).1 (mkStroke "b" 0 [])).1).1).1.objects = [] ∧
    (handleUndo (handleUndo
        (handleMouseUpBrush (handleMouseUpBrush { objects := [], history := [] }
          (mkStroke "a" 0 [])).1 (mkStroke "b" 0 [])).1).1).1.history = [] ∧
    ¬ (mkStroke "a" 0 []).id ∈ (handleUndo (handleUndo
        (handleMouseUpBrush (handleMouseUpBrush { objects := [], history := [] }
          (mkStroke "a" 0 [])).1 (mkStroke "b" 0 [])).1).1).1.objects.map
        (fun o => o.id) ∧
    ¬ (mkStroke "b" 0 []).id ∈ (handleUndo (handleUndo
        (handleMouseUpBrush (handleMouseUpBrush { objects := [], history := [] }
          (mkStroke "a" 0 [])).1 (mkStroke "b" 0 [])).1).1).1.objects.map
        (fun o => o.id) :=
  claim_C7_double_undo { objects := [], history := [] } (mkStroke "a" 0 [])
    (mkStroke "b" 0 []) (by decide) (by decide) (by decide)

theorem normalizeObject_eq_self (o : CanvasObject) (hid : ¬ o.id = "")
    (hty : o.typ ≠ none) : normalizeObject o = some o := by
  unfold normalizeObject
  rw [if_neg hid]
  cases h : o.typ with
  | none => exact absurd h hty
  | some t => rfl

theorem normalizeObject_id {o n : CanvasObject} (h : normalizeObject o = some n) :
    n.id = o.id := by
  unfold normalizeObject at h
  split at h
  · exact absurd h (by simp)
  · split at h <;> · injection h with h; subst h; rfl

/-- Counterexample to claim C2 as literally stated: on an object list
that already violates the id-uniqueness invariant (two entries with id
`x`), applying the same add twice leaves two objects with id `x`, not
exactly one. -/
theorem claim_C2_counterexample :
    ¬ ((addObjectToCanvas (addObjectToCanvas [mkStroke "x" 0 [], mkStroke "x" 1 []]
        (mkStroke "x" 0 [])).1 (mkStroke "x" 0 [])).1.filter
        (fun e => e.id = "x")).length = 1 := by decide

/-- Claim C2, amended: the add operation appends if and only if no
existing entry shares the id (a duplicate leaves the room's list
unchanged, is not broadcast, and the handler state is untouched), and
applying the same add twice to an object list containing at most one
entry with that id yields exactly one object with that id. -/
theorem claim_C2_add_idempotent :
    (∀ (l : List CanvasObject) (o : CanvasObject), ¬ o.id = "" → o.typ ≠ none →
      addObjectToCanvas l o =
        if l.any (fun e => e.id = o.id) then (l, none) else (l ++ [o], some o)) ∧
    (∀ (st : ServerState) (canvasId : String) (o : CanvasObject), ¬ canvasId = "" →
      (roomObjects st canvasId).any (fun e => e.id = o.id) = true →
      handleObjectAdded st canvasId o = (st, false)) ∧
    (∀ (l : List CanvasObject) (o : CanvasObject), ¬ o.id = "" →
      (l.filter (fun e => e.id = o.id)).length ≤ 1 →
      ((addObjectToCanvas (addObjectToCanvas l o).1 o).1.filter
        (fun e => e.id = o.id)).length = 1) := by
  refine ⟨?_, ?_, ?_⟩
  · intro l o hid hty
    simp only [addObjectToCanvas, normalizeObject_eq_self o hid hty]
  · intro st canvasId o hcid hany
    have hlook : ∃ l, lookupA st.canvasStates canvasId = some l ∧
        (l.any (fun e => e.id = o.id)) = true := by
      cases h : lookupA st.canvasStates canvasId with
      | none =>
        rw [roomObjects, h] at hany
        simp at hany
      | some l =>
        rw [roomObjects, h] at hany
        exact ⟨l, rfl, hany⟩
    obtain ⟨l, hl, hlany⟩ := hlook
    simp only [handleObjectAdded, if_neg hcid, getCanvasState, hl]
    cases hn : normalizeObject o with
    | none => simp [addObjectToCanvas, hn]
    | some n =>
      have : (l.any (fun e => e.id = n.id)) = true := by
        rw [normalizeObject_id hn]
        exact hlany
      simp [addObjectToCanvas, hn, this]
  · intro l o hid hone
    obtain ⟨n, hn⟩ : ∃ n, normalizeObject o = some n := by
      unfold normalizeObject
      rw [if_neg hid]
      cases o.typ <;> exact ⟨_, rfl⟩
    have hnid : n.id = o.id := normalizeObject_id hn
    by_cases hany : (l.any (fun e => e.id = n.id)) = true
    · have h1 : addObjectToCanvas l o = (l, none) := by
        simp [addObjectToCanvas, hn, hany]
      simp only [h1]
      obtain ⟨e, he, heid⟩ := List.any_eq_true.mp hany
      have hmem : e ∈ l.filter (fun x => x.id = o.id) := by
        rw [List.mem_filter]
        refine ⟨he, ?_⟩
        rw [← hnid]
        exact heid
      have h1le : 0 < (l.filter (fun x => x.id = o.id)).length :=
        List.length_pos_of_mem hmem
      omega
    · have hany' : (l.any (fun e => e.id = n.id)) = false :=
        Bool.eq_false_iff.mpr hany
      have h1 : addObjectToCanvas l o = (l ++ [n], some n) := by
        simp [addObjectToCanvas, hn, hany']
      have hfilter : l.filter (fun x => x.id = o.id) = [] := by
        rw [List.filter_eq_nil_iff]
        intro e he
        have := List.any_eq_false.mp hany' e he
        rw [hnid] at this
        simpa using this
      have h2 : addObjectToCanvas (l ++ [n]) o = (l ++ [n], none) := by
        have : ((l ++ [n]).any (fun e => e.id = n.id)) = true :=
          List.any_eq_true.mpr ⟨n, by simp, by simp⟩
        simp [addObjectToCanvas, hn, this]
      simp only [h1, h2]
      simp only [List.filter_append, hfilter, List.nil_append]
      simp [hnid]

/-- Witness for C2 (amended): adding the same stroke twice over the
empty list yields exactly one object with its id. -/
theorem claim_C2_add_idempotent_witness :
    ((addObjectToCanvas (addObjectToCanvas [] (mkStroke "x" 0 [])).1
        (mkStroke "x" 0 [])).1.filter (fun e => e.id = (mkStroke "x" 0 []).id)).length = 1 :=
  claim_C2_add_idempotent.2.2 [] (mkStroke "x" 0 []) (by decide) (by decide)

theorem map_replace_id_eq_self {l : List CanvasObject} {n : CanvasObject}
    (h : ¬ n.id ∈ l.map (fun o => o.id)) :
    l.map (fun e => if e.id = n.id then n else e) = l := by
  induction l with
  | nil => rfl
  | cons e rest ih =>
    simp only [List.map_cons, List.mem_cons] at h ⊢
    have h1 : ¬ e.id = n.id := fun hh => h (Or.inl hh.symm)
    rw [if_neg h1, ih (fun hh => h (Or.inr hh))]

theorem replaceFirstById_eq (l : List CanvasObject) (n : CanvasObject)
    (hnd : (l.map (fun o => o.id)).Nodup) :
    replaceFirstById l n =
      if l.any (fun e => e.id = n.id) then l.map (fun e => if e.id = n.id then n else e)
      else l ++ [n] := by
  induction l with
  | nil => simp [replaceFirstById]
  | cons e rest ih =>
    simp only [List.map_cons, List.nodup_cons] at hnd
    obtain ⟨hhead, htail⟩ := hnd
    by_cases he : e.id = n.id
    · have hrest : ¬ n.id ∈ rest.map (fun o => o.id) := he ▸ hhead
      have hany : ((e :: rest).any (fun x => x.id = n.id)) = true := by simp [he]
      rw [replaceFirstById, if_pos he, if_pos hany, List.map_cons, if_pos he,
        map_replace_id_eq_self hrest]
    · rw [replaceFirstById, if_neg he, ih htail]
      by_cases hany : rest.any (fun x => x.id = n.id) = true
      · simp [hany, he]
      · simp [hany, he]

/-- Claim C4: for a well-formed object, the relay update replaces the
entry with matching id in place (all other entries and the order
unchanged) and appends when the id is absent.  The id-uniqueness
hypothesis is the invariant that holds for every reachable room object
list (proved separately for all relay mutation sequences). -/
theorem claim_C4_update_replace_or_append (l : List CanvasObject) (o : CanvasObject)
    (hid : ¬ o.id = "") (hty : o.typ ≠ none)
    (hnd : (l.map (fun e => e.id)).Nodup) :
    (updateObjectInCanvas l o).1 =
      if l.any (fun e => e.id = o.id) then l.map (fun e => if e.id = o.id then o else e)
      else l ++ [o] := by
  simp only [updateObjectInCanvas, normalizeObject_eq_self o hid hty]
  exact replaceFirstById_eq l o hnd

/-- Witness for C4: updating `a` in a two-object room replaces it in
place; updating an absent id appends. -/
theorem claim_C4_update_replace_or_append_witness :
    (updateObjectInCanvas [mkStroke "a" 0 [], mkStroke "b" 0 []] (mkStroke "a" 5 [])).1 =
      [mkStroke "a" 5 [], mkStroke "b" 0 []] :=
  (claim_C4_update_replace_or_append [mkStroke "a" 0 [], mkStroke "b" 0 []]
    (mkStroke "a" 5 []) (by decide) (by decide) (by decide)).trans (by decide)

theorem map_id_replaceFirstById (l : List CanvasObject) (n : CanvasObject) :
    (replaceFirstById l n).map (fun o => o.id) =
      if l.any (fun e => e.id = n.id) then l.map (fun o => o.id)
      else l.map (fun o => o.id) ++ [n.id] := by
  induction l with
  | nil => simp [replaceFirstById]
  | cons e rest ih =>
    by_cases he : e.id = n.id
    · simp [replaceFirstById, he]
    · simp only [replaceFirstById, if_neg he, List.map_cons, ih]
      by_cases hany : rest.any (fun x => x.id = n.id) = true <;> simp [hany, he]

theorem removeOneById_sublist (l : List CanvasObject) (i : String) :
    (removeOneById l i).Sublist l := by
  induction l with
  | nil => simp [removeOneById]
  | cons e rest ih =>
    rw [removeOneById]
    by_cases he : e.id = i
    · rw [if_pos he]
      exact List.sublist_cons_self e rest
    · rw [if_neg he]
      exact ih.cons₂ e

theorem nodup_fold_removeOneById (objectIds : List String) (l : List CanvasObject)
    (h : (l.map (fun o => o.id)).Nodup) :
    ((objectIds.foldl removeOneById l).map (fun o => o.id)).Nodup := by
  induction objectIds generalizing l with
  | nil => exact h
  | cons i rest ih =>
    rw [List.foldl_cons]
    exact ih _ (h.sublist ((removeOneById_sublist l i).map _))

theorem nodup_applyRelayOp (l : List CanvasObject) (op : RelayOp)
    (h : (l.map (fun o => o.id)).Nodup) :
    ((applyRelayOp l op).map (fun o => o.id)).Nodup := by
  cases op with
  | add o =>
    simp only [applyRelayOp, addObjectToCanvas]
    cases hn : normalizeObject o with
    | none => exact h
    | some n =>
      by_cases hany : (l.any (fun e => e.id = n.id)) = true
      · simpa [hany] using h
      · have hnotin : ¬ n.id ∈ l.map (fun o => o.id) := by
          intro hmem
          obtain ⟨e, he, heq⟩ := List.mem_map.mp hmem
          exact hany (List.any_eq_true.mpr ⟨e, he, by simp [heq]⟩)
        simp only [Bool.not_eq_true] at hany
        simp [hany, List.nodup_append, h, hnotin]
  | update o =>
    simp only [applyRelayOp, updateObjectInCanvas]
    cases hn : normalizeObject o with
    | none => exact h
    | some n =>
      simp only [map_id_replaceFirstById]
      by_cases hany : (l.any (fun e => e.id = n.id)) = true
      · simpa [hany] using h
      · have hnotin : ¬ n.id ∈ l.map (fun o => o.id) := by
          intro hmem
          obtain ⟨e, he, heq⟩ := List.mem_map.mp hmem
          exact hany (List.any_eq_true.mpr ⟨e, he, by simp [heq]⟩)
        simp only [Bool.not_eq_true] at hany
        simp [hany, List.nodup_append, h, hnotin]
  | remove ids =>
    exact nodup_fold_removeOneById ids l h
  | clear => simp [applyRelayOp]

/-- Claim C5: starting from the empty room object list, every sequence
of relay mutations (add, update, remove, clear) yields a list whose
entries have pairwise distinct ids. -/
theorem claim_C5_distinct_ids (ops : List RelayOp) :
    ((ops.foldl applyRelayOp []).map (fun o => o.id)).Nodup := by
  have gen : ∀ (ops : List RelayOp) (l : List CanvasObject),
      (l.map (fun o => o.id)).Nodup →
      ((ops.foldl applyRelayOp l).map (fun o => o.id)).Nodup := by
    intro ops
    induction ops with
    | nil => intro l h; exact h
    | cons op rest ih =>
      intro l h
      rw [List.foldl_cons]
      exact ih _ (nodup_applyRelayOp l op h)
  exact gen ops [] (by simp)

theorem lookupA_setA_self {κ α : Type} [DecidableEq κ] (m : List (κ × α)) (k : κ) (v : α) :
    lookupA (setA m k v) k = some v := by
  induction m with
  | nil => simp [setA, lookupA]
  | cons p rest ih =>
    by_cases h : p.1 = k
    · simp [setA, h, lookupA]
    · simp [setA, h, lookupA, ih]

theorem removeOneById_eq_self {l : List CanvasObject} {i : String}
    (h : ¬ i ∈ l.map (fun o => o.id)) : removeOneById l i = l := by
  induction l with
  | nil => rfl
  | cons e rest ih =>
    simp only [List.map_cons, List.mem_cons] at h
    rw [removeOneById, if_neg (fun hh => h (Or.inl hh.symm)), ih (fun hh => h (Or.inr hh))]

theorem removeOneById_eq_filter {l : List CanvasObject} (i : String)
    (hnd : (l.map (fun o => o.id)).Nodup) :
    removeOneById l i = l.filter (fun o => ¬ o.id = i) := by
  induction l with
  | nil => rfl
  | cons e rest ih =>
    simp only [List.map_cons, List.nodup_cons] at hnd
    obtain ⟨hhead, htail⟩ := hnd
    by_cases he : e.id = i
    · have hfdrop : ¬ (decide ¬(e.id = i)) = true := by simp [he]
      have hrest : rest.filter (fun o => ¬ o.id = i) = rest := by
        refine List.filter_eq_self.mpr ?_
        intro a ha
        have : ¬ a.id = e.id := by
          intro hh
          exact hhead (List.mem_map.mpr ⟨a, ha, hh⟩)
        simpa [he] using he ▸ this
      rw [removeOneById, if_pos he, List.filter_cons, if_neg hfdrop, hrest]
    · have hfkeep : (decide ¬(e.id = i)) = true := by simp [he]
      rw [removeOneById, if_neg he, List.filter_cons, if_pos hfkeep, ih htail]

theorem foldl_removeOneById_eq_filter (objectIds : List String) (l : List CanvasObject)
    (hnd : (l.map (fun o => o.id)).Nodup) :
    objectIds.foldl removeOneById l = l.filter (fun o => ! objectIds.contains o.id) := by
  induction objectIds generalizing l with
  | nil => simp
  | cons i rest ih =>
    rw [List.foldl_cons, removeOneById_eq_filter i hnd]
    have hnd2 : ((l.filter (fun o => ¬ o.id = i)).map (fun o => o.id)).Nodup :=
      hnd.sublist ((List.filter_sublist l).map _)
    rw [ih _ hnd2, List.filter_filter]
    congr 1
    funext o
    by_cases h1 : o.id = i <;> simp [h1]

theorem filter_length_ne_iff {α : Type} {l : List α} {p : α → Bool} :
    ((l.filter p).length ≠ l.length) ↔ ∃ x ∈ l, ¬ p x = true := by
  constructor
  · intro h
    by_contra hc
    push_neg at hc
    exact h (by rw [List.filter_eq_self.mpr hc])
  · rintro ⟨x, hx, hpx⟩ hlen
    have heq : l.filter p = l := (List.filter_sublist l).eq_of_length hlen
    exact hpx (List.filter_eq_self.mp heq x hx)

theorem removeObjects_eq_filter (l : List CanvasObject) (objectIds : List String)
    (hnd : (l.map (fun o => o.id)).Nodup) :
    (removeObjectsFromCanvas l objectIds).1 =
      l.filter (fun o => ! objectIds.contains o.id) := by
  simp only [removeObjectsFromCanvas]
  exact foldl_removeOneById_eq_filter objectIds l hnd

theorem removeObjects_flag_iff (l : List CanvasObject) (objectIds : List String)
    (hnd : (l.map (fun o => o.id)).Nodup) :
    ((removeObjectsFromCanvas l objectIds).2 = true ↔ ∃ o ∈ l, o.id ∈ objectIds) := by
  simp only [removeObjectsFromCanvas]
  rw [foldl_removeOneById_eq_filter objectIds l hnd, decide_eq_true_eq,
    filter_length_ne_iff]
  constructor
  · rintro ⟨x, hx, hpx⟩
    refine ⟨x, hx, ?_⟩
    simpa using hpx
  · rintro ⟨x, hx, hpx⟩
    refine ⟨x, hx, ?_⟩
    simpa using hpx

theorem foldl_removeOneById_nil (objectIds : List String) :
    objectIds.foldl removeOneById [] = [] := by
  induction objectIds with
  | nil => rfl
  | cons i rest ih => simpa [removeOneById] using ih

/-- Claim C3: a remove deletes exactly the entries whose id is listed
(keeping every other entry in order), the handler rebroadcasts if and
only if at least one entry was actually removed, and removing an absent
id is a silent no-op.  The id-uniqueness hypotheses are the invariant
that holds for every reachable room object list (proved separately for
all relay mutation sequences). -/
theorem claim_C3_remove_exact_and_silent :
    (∀ (l : List CanvasObject) (objectIds : List String),
      (l.map (fun o => o.id)).Nodup →
      (removeObjectsFromCanvas l objectIds).1 =
        l.filter (fun o => ! objectIds.contains o.id) ∧
      ((removeObjectsFromCanvas l objectIds).2 = true ↔
        ∃ o ∈ l, o.id ∈ objectIds)) ∧
    (∀ (st : ServerState) (canvasId : String) (objectIds : List String),
      ¬ canvasId = "" →
      ((roomObjects st canvasId).map (fun o => o.id)).Nodup →
      ((handleObjectRemoved st canvasId objectIds).2 = true ↔
        ∃ o ∈ roomObjects st canvasId, o.id ∈ objectIds) ∧
      roomObjects (handleObjectRemoved st canvasId objectIds).1 canvasId =
        (roomObjects st canvasId).filter (fun o => ! objectIds.contains o.id)) ∧
    (∀ (l : List CanvasObject) (x : String), ¬ x ∈ l.map (fun o => o.id) →
      removeObjectsFromCanvas l [x] = (l, false)) := by
  refine ⟨?_, ?_, ?_⟩
  · intro l objectIds hnd
    exact ⟨removeObjects_eq_filter l objectIds hnd, removeObjects_flag_iff l objectIds hnd⟩
  · intro st canvasId objectIds hcid hnd
    cases hl : lookupA st.canvasStates canvasId with
    | some l =>
      have hroom : roomObjects st canvasId = l := by
        rw [roomObjects, hl]
        rfl
      rw [hroom] at hnd
      simp only [handleObjectRemoved, if_neg hcid, getCanvasState, hl, hroom]
      constructor
      · exact removeObjects_flag_iff l objectIds hnd
      · rw [roomObjects, lookupA_setA_self]
        exact removeObjects_eq_filter l objectIds hnd
    | none =>
      have hroom : roomObjects st canvasId = [] := by
        rw [roomObjects, hl]
        rfl
      simp only [handleObjectRemoved, if_neg hcid, getCanvasState, hl, hroom]
      constructor
      · simp [removeObjectsFromCanvas, foldl_removeOneById_nil]
      · rw [roomObjects, lookupA_setA_self]
        simp [removeObjectsFromCanvas, foldl_removeOneById_nil]
  · intro l x hx
    simp only [removeObjectsFromCanvas, List.foldl_cons, List.foldl_nil,
      removeOneById_eq_self hx]
    simp

/-- Witness for C3: removing an absent id from a one-object room leaves
the list unchanged and reports no removal (hence no rebroadcast). -/
theorem claim_C3_remove_exact_and_silent_witness :
    removeObjectsFromCanvas [mkStroke "a" 0 []] ["zz"] = ([mkStroke "a" 0 []], false) :=
  claim_C3_remove_exact_and_silent.2.2 [mkStroke "a" 0 []] "zz" (by decide)

theorem socketJoin_canvasStates (st : ServerState) (sid canvasId : String) :
    (socketJoin st sid canvasId).canvasStates = st.canvasStates := by
  simp only [socketJoin]
  split <;> rfl

theorem getRoom_socketJoin (st : ServerState) (sid canvasId : String) :
    getRoom (socketJoin st sid canvasId) canvasId =
      (if sid ∈ getRoom st canvasId then getRoom st canvasId
       else getRoom st canvasId ++ [sid]) := by
  simp only [socketJoin]
  split
  · rfl
  · rw [getRoom]
    show (lookupA (setA st.rooms canvasId (getRoom st canvasId ++ [sid])) canvasId).getD [] = _
    rw [lookupA_setA_self]
    rfl

/-- Claim C1: a join naming a room whose member count is at least
`MAX_USERS_PER_SESSION` is answered point-to-point with the capacity
error and leaves the whole relay state (membership and object lists)
untouched; a join below the limit adds the socket to the room and
answers with the room's full current object list, leaving the object
list unchanged; in particular, after ten accepted joins to `room2` an
eleventh join request is rejected with the capacity error. -/
theorem claim_C1_capacity_gate :
    (∀ (st : ServerState) (sid canvasId : String), ¬ canvasId = "" →
      MAX_USERS_PER_SESSION ≤ (getRoom st canvasId).length →
      joinCanvas st sid canvasId =
        (st, .errorReply "Session is full. Maximum 10 users allowed per session.")) ∧
    (∀ (st : ServerState) (sid canvasId : String), ¬ canvasId = "" →
      (getRoom st canvasId).length < MAX_USERS_PER_SESSION →
      (joinCanvas st sid canvasId).2 = .canvasState (roomObjects st canvasId) ∧
      getRoom (joinCanvas st sid canvasId).1 canvasId =
        (if sid ∈ getRoom st canvasId then getRoom st canvasId
         else getRoom st canvasId ++ [sid]) ∧
      roomObjects (joinCanvas st sid canvasId).1 canvasId = roomObjects st canvasId) ∧
    (getRoom tenJoinsState "room2" =
        ["u0", "u1", "u2", "u3", "u4", "u5", "u6", "u7", "u8", "u9"] ∧
      (joinCanvas tenJoinsState "u10" "room2").2 =
        .errorReply "Session is full. Maximum 10 users allowed per session.") := by
  refine ⟨?_, ?_, rfl, rfl⟩
  · intro st sid canvasId hcid hcap
    simp only [joinCanvas, if_neg hcid]
    rw [if_pos hcap]
  · intro st sid canvasId hcid hlt
    simp only [joinCanvas, if_neg hcid, if_neg (not_le.mpr hlt)]
    cases hl : lookupA st.canvasStates canvasId with
    | some l =>
      have hroom : roomObjects st canvasId = l := by
        rw [roomObjects, hl]
        rfl
      have hcs : lookupA (socketJoin st sid canvasId).canvasStates canvasId = some l := by
        rw [socketJoin_canvasStates, hl]
      simp only [getCanvasState, hcs, hroom]
      refine ⟨trivial, ?_, ?_⟩
      · exact getRoom_socketJoin st sid canvasId
      · rw [roomObjects, socketJoin_canvasStates, hl]
        rfl
    | none =>
      have hroom : roomObjects st canvasId = [] := by
        rw [roomObjects, hl]
        rfl
      have hcs : lookupA (socketJoin st sid canvasId).canvasStates canvasId = none := by
        rw [socketJoin_canvasStates, hl]
      simp only [getCanvasState, hcs, hroom]
      refine ⟨trivial, ?_, ?_⟩
      · exact getRoom_socketJoin st sid canvasId
      · rw [roomObjects]
        show (lookupA (setA (socketJoin st sid canvasId).canvasStates canvasId []) canvasId).getD [] = _
        rw [lookupA_setA_self]
        rfl

/-- Witness for C1: on the full `room2` of `tenJoinsState`, the join of
`u10` is rejected with the capacity error and the state is untouched. -/
theorem claim_C1_capacity_gate_witness :
    joinCanvas tenJoinsState "u10" "room2" =
      (tenJoinsState, .errorReply "Session is full. Maximum 10 users allowed per session.") :=
  claim_C1_capacity_gate.1 tenJoinsState "u10" "room2" (by decide)
    (by rw [claim_C1_capacity_gate.2.2.1]; decide)

/-- Counterexample to claim C9 as stated: a committed add arrives for the
very stroke the client is rendering in progress (the client-generated
identifier `s1` is carried through both messages), yet the in-progress
entry is not retired, because the receiver matches by first-point
coordinates and the first points differ. -/
theorem claim_C9_counterexample :
    sampleCommitted.typ = some "stroke" ∧
    sampleInProgress.nodeIdStrokeId = sampleCommitted.id ∧
    ("n1", sampleInProgress) ∈
      retireInProgressStrokes [("n1", sampleInProgress)] sampleCommitted := by decide

/-- Claim C9, amended: on a committed stroke add the receiver retires
exactly the in-progress entries whose first point coordinates equal the
committed stroke's first point (both non-empty); the match is by
first-point equality, not by the shared client-generated identifier, and
a non-stroke add retires nothing. -/
theorem claim_C9_retire_by_first_point :
    (∀ (inProgress : List (String × InProgressStroke)) (object : CanvasObject)
      (nodeId : String) (ip : InProgressStroke),
      object.typ = some "stroke" →
      ((nodeId, ip) ∈ retireInProgressStrokes inProgress object ↔
        (nodeId, ip) ∈ inProgress ∧ firstPointMatch ip.points object.points = false)) ∧
    (∀ (inProgress : List (String × InProgressStroke)) (object : CanvasObject),
      object.typ ≠ some "stroke" →
      retireInProgressStrokes inProgress object = inProgress) := by
  constructor
  · intro m o nid ip hty
    simp only [retireInProgressStrokes, if_pos hty, List.mem_filter,
      Bool.not_eq_true']
  · intro m o hty
    simp [retireInProgressStrokes, hty]

/-- Witness for C9 (amended): retirement of `sampleInProgress` on the
arrival of `sampleCommitted` is decided by the first-point comparison. -/
theorem claim_C9_retire_by_first_point_witness :
    ("n1", sampleInProgress) ∈
        retireInProgressStrokes [("n1", sampleInProgress)] sampleCommitted ↔
      ("n1", sampleInProgress) ∈ [("n1", sampleInProgress)] ∧
        firstPointMatch sampleInProgress.points sampleCommitted.points = false :=
  claim_C9_retire_by_first_point.1 [("n1", sampleInProgress)] sampleCommitted
    "n1" sampleInProgress (by decide)

theorem chunkLoop_flatten (chunkSize : Nat) (hS : 0 < chunkSize) :
    ∀ (fuel : Nat) (bytes : List Nat) (seq : Nat), bytes.length ≤ fuel →
    ((chunkLoop chunkSize fuel bytes seq).map Prod.snd).flatten = bytes := by
  intro fuel
  induction fuel with
  | zero =>
    intro bytes seq h
    have hnil : bytes = [] := List.eq_nil_of_length_eq_zero (Nat.le_zero.mp h)
    subst hnil
    rfl
  | succ n ih =>
    intro bytes seq h
    cases bytes with
    | nil => rfl
    | cons b bs =>
      simp only [chunkLoop, List.map_cons, List.flatten_cons]
      rw [ih (List.drop chunkSize (b :: bs)) (seq + 1) ?_, List.take_append_drop]
      have hlen : (b :: bs).length = bs.length + 1 := rfl
      have hdrop : (List.drop chunkSize (b :: bs)).length = (b :: bs).length - chunkSize :=
        List.length_drop chunkSize (b :: bs)
      simp only [List.length_cons] at h ⊢
      omega

theorem chunkLoop_key_ge (chunkSize : Nat) :
    ∀ (fuel : Nat) (bytes : List Nat) (seq : Nat),
    ∀ p ∈ chunkLoop chunkSize fuel bytes seq, seq ≤ p.1 := by
  intro fuel
  induction fuel with
  | zero =>
    intro bytes seq p hp
    simp [chunkLoop] at hp
  | succ n ih =>
    intro bytes seq p hp
    cases bytes with
    | nil => simp [chunkLoop] at hp
    | cons b bs =>
      simp only [chunkLoop, List.mem_cons] at hp
      rcases hp with h | h
      · rw [h]
      · exact Nat.le_of_succ_le (ih _ _ p h)

theorem chunkLoop_pairwise (chunkSize : Nat) :
    ∀ (fuel : Nat) (bytes : List Nat) (seq : Nat),
    (chunkLoop chunkSize fuel bytes seq).Pairwise (fun a b => a.1 < b.1) := by
  intro fuel
  induction fuel with
  | zero =>
    intro bytes seq
    simp [chunkLoop]
  | succ n ih =>
    intro bytes seq
    cases bytes with
    | nil => simp [chunkLoop]
    | cons b bs =>
      simp only [chunkLoop]
      refine List.Pairwise.cons ?_ (ih _ _)
      intro p hp
      have := chunkLoop_key_ge chunkSize n (List.drop chunkSize (b :: bs)) (seq + 1) p hp
      simp only
      omega

theorem keys_nodup_of_pairwise_lt {l : List (Nat × List Nat)}
    (h : l.Pairwise (fun a b => a.1 < b.1)) : (l.map Prod.fst).Nodup := by
  rw [List.Nodup, List.pairwise_map]
  exact h.imp (fun hlt => Nat.ne_of_lt hlt)

theorem setA_append {κ α : Type} [DecidableEq κ] (m : List (κ × α)) (k : κ) (v : α)
    (h : ¬ k ∈ m.map Prod.fst) : setA m k v = m ++ [(k, v)] := by
  induction m with
  | nil => rfl
  | cons p rest ih =>
    simp only [List.map_cons, List.mem_cons] at h
    rw [setA, if_neg (fun hh => h (Or.inl hh.symm)), ih (fun hh => h (Or.inr hh))]
    rfl

theorem foldl_buffer_eq (arrival : List (Nat × List Nat)) :
    ∀ acc, ((acc ++ arrival).map Prod.fst).Nodup →
    arrival.foldl (fun m p => bufferAssetChunk m p.1 p.2) acc = acc ++ arrival := by
  induction arrival with
  | nil =>
    intro acc _
    simp
  | cons p rest ih =>
    intro acc h
    rw [List.foldl_cons]
    have hk : ¬ p.1 ∈ acc.map Prod.fst := by
      intro hmem
      rw [List.map_append] at h
      exact List.disjoint_of_nodup_append h hmem (by simp)
    have hstep : bufferAssetChunk acc p.1 p.2 = acc ++ [p] := by
      rw [bufferAssetChunk, setA_append acc p.1 p.2 hk]
    rw [hstep, ih (acc ++ [p]) (by simpa using h)]
    simp

theorem eq_of_perm_pairwise_lt :
    ∀ {l₁ l₂ : List (Nat × List Nat)}, l₁.Perm l₂ →
    l₁.Pairwise (fun a b => a.1 < b.1) → l₂.Pairwise (fun a b => a.1 < b.1) → l₁ = l₂ := by
  intro l₁
  induction l₁ with
  | nil =>
    intro l₂ hp _ _
    exact (hp.symm.eq_nil).symm
  | cons x t₁ ih =>
    intro l₂ hp h₁ h₂
    cases l₂ with
    | nil => exact absurd hp.eq_nil (by simp)
    | cons y t₂ =>
      by_cases hxy : x = y
      · subst hxy
        rw [ih hp.cons_inv h₁.of_cons h₂.of_cons]
      · exfalso
        have hx2 : x ∈ y :: t₂ := hp.subset (List.mem_cons_self x t₁)
        have hy1 : y ∈ x :: t₁ := hp.symm.subset (List.mem_cons_self y t₂)
        have hx2' : x ∈ t₂ := by
          rcases List.mem_cons.mp hx2 with h | h
          · exact absurd h hxy
          · exact h
        have hy1' : y ∈ t₁ := by
          rcases List.mem_cons.mp hy1 with h | h
          · exact absurd h.symm hxy
          · exact h
        have hlt1 : x.1 < y.1 := (List.pairwise_cons.mp h₁).1 y hy1'
        have hlt2 : y.1 < x.1 := (List.pairwise_cons.mp h₂).1 x hx2'
        omega

theorem pairwise_lt_of_sorted_le {l : List (Nat × List Nat)}
    (hs : l.Pairwise (fun a b => a.1 ≤ b.1)) (hnd : (l.map Prod.fst).Nodup) :
    l.Pairwise (fun a b => a.1 < b.1) := by
  have hne : l.Pairwise (fun a b => a.1 ≠ b.1) := (List.pairwise_map).mp hnd
  exact (hs.and hne).imp (fun h => Nat.lt_of_le_of_ne h.1 h.2)

/-- Claim C8: a byte blob chunked by the sender into ascending-sequence
chunks and reassembled by the receiver (buffering by sequence number,
then concatenating in ascending sequence order on the complete message)
is reconstructed byte-for-byte, for every arrival order of the chunks
and every positive chunk size (hence in particular for one, two or fifty
chunks, delivered in reverse order or otherwise). -/
theorem claim_C8_chunk_roundtrip (chunkSize : Nat) (hS : 0 < chunkSize)
    (bytes : List Nat) (arrival : List (Nat × List Nat))
    (hperm : arrival.Perm (chunkAssetBytes chunkSize bytes)) :
    assembleAssetChunks (arrival.foldl (fun m p => bufferAssetChunk m p.1 p.2) []) =
      bytes := by
  have hchunks_lt : (chunkAssetBytes chunkSize bytes).Pairwise (fun a b => a.1 < b.1) :=
    chunkLoop_pairwise chunkSize bytes.length bytes 0
  have hchunks_nodup : ((chunkAssetBytes chunkSize bytes).map Prod.fst).Nodup :=
    keys_nodup_of_pairwise_lt hchunks_lt
  have harr_nodup : (arrival.map Prod.fst).Nodup :=
    ((hperm.map Prod.fst).nodup_iff).mpr hchunks_nodup
  have hfold : arrival.foldl (fun m p => bufferAssetChunk m p.1 p.2) [] = arrival := by
    simpa using foldl_buffer_eq arrival [] (by simpa using harr_nodup)
  rw [hfold, assembleAssetChunks]
  have hsorted_le :
      (List.insertionSort (fun a b => a.1 ≤ b.1) arrival).Pairwise (fun a b => a.1 ≤ b.1) :=
    List.sorted_insertionSort _ arrival
  have hsort_perm : (List.insertionSort (fun a b => a.1 ≤ b.1) arrival).Perm arrival :=
    List.perm_insertionSort _ arrival
  have hsort_nodup :
      ((List.insertionSort (fun a b => a.1 ≤ b.1) arrival).map Prod.fst).Nodup :=
    ((hsort_perm.map Prod.fst).nodup_iff).mpr harr_nodup
  have heq : List.insertionSort (fun a b => a.1 ≤ b.1) arrival =
      chunkAssetBytes chunkSize bytes :=
    eq_of_perm_pairwise_lt (hsort_perm.trans hperm)
      (pairwise_lt_of_sorted_le hsorted_le hsort_nodup) hchunks_lt
  rw [heq]
  exact chunkLoop_flatten chunkSize hS bytes.length bytes 0 (Nat.le_refl _)

/-- Witness for C8: the blob `[1, 2, 3, 4, 5]` chunked with size 2 and
delivered in reverse order reassembles to the original bytes. -/
theorem claim_C8_chunk_roundtrip_witness :
    assembleAssetChunks (((chunkAssetBytes 2 [1, 2, 3, 4, 5]).reverse).foldl
      (fun m p => bufferAssetChunk m p.1 p.2) []) = [1, 2, 3, 4, 5] :=
  claim_C8_chunk_roundtrip 2 (by decide) [1, 2, 3, 4, 5]
    ((chunkAssetBytes 2 [1, 2, 3, 4, 5]).reverse) (List.reverse_perm _)
